import Mathlib

/-!
Verification development for the homelab-monitoring collector.

This file gives a shallow embedding, in Lean, of the core pieces of the
repository under scrutiny:

* the variable-interpolation engine of src/collector/collector.py
  (ConfigContext.resolve_str with strict -- Python str.format -- and lenient
  -- SafeFormatter -- modes, and ConfigContext.resolve_dict),
* the local spool and the Azure flush engine of src/collector/storage.py
  (write_to_spool, build_bronze_path, flush_spool),
* the scheduler due-ness predicate of src/collector/scheduler.py (should_run),
* the loop-mode item processing of src/collector/collector.py (run_collector).

Modelling conventions:

* Python dicts are association lists with dict.update semantics
  (replace-in-place for an existing key, append for a new one).
* Context values are modelled as strings: formatting a value with an empty
  format spec is str(value), which is the only way values are consumed here.
* Python exceptions are modelled with Except; the error type distinguishes
  KeyError, IndexError, ValueError, AttributeError and the CollectorError
  raised by resolve_str in strict mode.
* Python format strings are modelled by a parser into literal/field segments
  that follows string.Formatter: brace escapes, replacement fields with
  optional conversion and format spec (nested replacement fields inside a
  spec are supported one level deep, as in str.format / string.Formatter
  called with recursion budget 2).  Since resolve_str always calls
  format(text, **ctx) with an empty positional-argument tuple, any
  automatic or manually numbered field raises IndexError; this is modelled
  directly.  Attribute/index accessors applied to the (string-valued)
  context values are modelled as raising AttributeError, which matches
  Python for string values and non-method accessor names.
* The Azure object store is a map from blob path to blob (kind plus the
  list of appended blocks); transient append/unlink failures are injected
  through Boolean oracles keyed by the part-file name.
-/

set_option maxHeartbeats 1000000

namespace HLM

/-- Decidable equality for Except results, used to evaluate the model on
concrete inputs. -/
instance {ε α : Type} [DecidableEq ε] [DecidableEq α] : DecidableEq (Except ε α) :=
  fun a b =>
    match a, b with
    | .ok x, .ok y =>
      if h : x = y then isTrue (by rw [h]) else isFalse (by simp [h])
    | .error e, .error f =>
      if h : e = f then isTrue (by rw [h]) else isFalse (by simp [h])
    | .ok _, .error _ => isFalse (by simp)
    | .error _, .ok _ => isFalse (by simp)

/-! ## Python dictionaries as association lists -/

/-- Context for interpolation: a Python dict from string keys to
(string-rendered) values, in insertion order. -/
abbrev Ctx := List (String × String)

/-- Python dict assignment d[k] = v: replace the value in place if the key
exists, otherwise append the new binding. -/
def dictSet (d : Ctx) (k v : String) : Ctx :=
  if d.any (fun kv => kv.1 == k) then
    d.map (fun kv => if kv.1 == k then (k, v) else kv)
  else d ++ [(k, v)]

/-- Python dict.update: apply each binding of the second dict to the first,
in order. -/
def dictUpdateAll (d e : Ctx) : Ctx :=
  e.foldl (fun acc kv => dictSet acc kv.1 kv.2) d

/-- Python dict lookup d.get(k): the value of the first (and only) binding
for the key. -/
def lookupCtx (d : Ctx) (k : String) : Option String :=
  (d.find? (fun kv => kv.1 == k)).map (fun kv => kv.2)

/-- Uppercase a string character by character (Python str.upper,
faithful for the ASCII keys and values this configuration uses). -/
def upperStr (s : String) : String :=
  String.mk (s.data.map Char.toUpper)

/-- The merged context of ConfigContext.resolve_str: start from the base
context (the collect block of the job config), update with the caller
runtime context, then update with the derived layer of uppercased
keys/values computed from the merge, exactly as in collector.py lines
44-53. -/
def mergedContext (base extra : Ctx) : Ctx :=
  let full := dictUpdateAll base extra
  dictUpdateAll full (full.map (fun kv => (upperStr kv.1, upperStr kv.2)))

/-! ## Python format strings: parsing -/

/-- Errors of the modelled Python runtime. -/
inductive PyErr where
  | keyError (key : String)
  | indexError
  | valueError (msg : String)
  | attributeError
deriving Repr, DecidableEq

/-- One segment of a parsed format string: a run of literal text, or a
replacement field with its raw field name, optional conversion character
and format spec. -/
inductive Seg where
  | lit (s : String)
  | field (name : String) (conv : Option Char) (spec : String)
deriving Repr, DecidableEq

/-- Scan the format spec of a replacement field, counting nested braces,
up to the closing brace of the field. -/
def scanSpec : List Char → List Char → Nat → Except PyErr (List Char × List Char)
  | [], _, _ => .error (.valueError "unterminated format spec in format string")
  | '{' :: rest, acc, depth => scanSpec rest (acc ++ ['{']) (depth + 1)
  | '}' :: rest, acc, depth =>
    match depth with
    | 0 => .ok (acc, rest)
    | d + 1 => scanSpec rest (acc ++ ['}']) d
  | c :: rest, acc, depth => scanSpec rest (acc ++ [c]) depth

/-- Scan the inside of a replacement field (after the opening brace):
the field name, then an optional conversion introduced by an exclamation
mark, then an optional format spec introduced by a colon. -/
def scanField : List Char → List Char → Except PyErr (Seg × List Char)
  | [], _ => .error (.valueError "expected closing brace before end of string")
  | '}' :: rest, acc => .ok (.field (String.mk acc) none "", rest)
  | ':' :: rest, acc => do
    let (sp, r2) ← scanSpec rest [] 0
    .ok (.field (String.mk acc) none (String.mk sp), r2)
  | '!' :: c :: '}' :: rest, acc => .ok (.field (String.mk acc) (some c) "", rest)
  | '!' :: c :: ':' :: rest, acc => do
    let (sp, r2) ← scanSpec rest [] 0
    .ok (.field (String.mk acc) (some c) (String.mk sp), r2)
  | '!' :: _, _ => .error (.valueError "expected colon or closing brace after conversion")
  | '{' :: _, _ => .error (.valueError "unexpected opening brace in field name")
  | c :: rest, acc => scanField rest (acc ++ [c])

/-- Fuel-driven worker for the format-string parser; the fuel is an upper
bound on the number of segments, so input length plus one always
suffices. -/
def parseFmtAux : Nat → List Char → Except PyErr (List Seg)
  | 0, _ => .error (.valueError "parser fuel exhausted")
  | _ + 1, [] => .ok []
  | fuel + 1, '{' :: '{' :: rest => do
    let segs ← parseFmtAux fuel rest
    .ok (.lit "\x7b" :: segs)
  | fuel + 1, '}' :: '}' :: rest => do
    let segs ← parseFmtAux fuel rest
    .ok (.lit "\x7d" :: segs)
  | fuel + 1, '{' :: rest => do
    let (sg, rest2) ← scanField rest []
    let segs ← parseFmtAux fuel rest2
    .ok (sg :: segs)
  | _ + 1, '}' :: _ => .error (.valueError "single closing brace encountered in format string")
  | fuel + 1, c :: rest => do
    let segs ← parseFmtAux fuel rest
    .ok (.lit (String.mk [c]) :: segs)

/-- Parse a Python format string into segments, as string.Formatter.parse
does (modulo lumping of adjacent literal characters, which is
semantically irrelevant). -/
def parseFmt (cs : List Char) : Except PyErr (List Seg) :=
  parseFmtAux (cs.length + 1) cs

/-! ## Python format strings: evaluation -/

/-- Split a raw field name into its head (the part before the first
attribute/index accessor) and a flag telling whether any accessor
follows, as _string.formatter_field_name_split does. -/
def splitHeadAcc : List Char → List Char × Bool
  | [] => ([], false)
  | c :: rest =>
    if c == '.' || c == '[' then ([], true)
    else
      let (h, a) := splitHeadAcc rest
      (c :: h, a)

/-- The single-quote character, used by the model of Python repr. -/
def squote : Char := Char.ofNat 39

/-- Python repr of a string value (faithful for strings without quotes,
backslashes or non-printable characters, which is all this code ever
converts). -/
def pyRepr (s : String) : String :=
  String.mk (squote :: s.data ++ [squote])

/-- Apply a conversion character, as Formatter.convert_field. -/
def applyConv : Option Char → String → Except PyErr String
  | none, s => .ok s
  | some c, s =>
    if c == 's' then .ok s
    else if c == 'r' || c == 'a' then .ok (pyRepr s)
    else .error (.valueError "unknown conversion specifier")

/-- Look up the object named by a replacement field, as
Formatter.get_field over an empty positional tuple and the merged keyword
context.  An empty or all-digit head is an automatic/manual positional
reference and raises IndexError because resolve_str never passes
positional arguments; a missing keyword raises KeyError in strict mode
and yields the brace-wrapped field name in lenient mode
(SafeFormatter.get_value); accessors on the string-valued result raise
AttributeError. -/
def getFieldObj (lenient : Bool) (ctx : Ctx) (name : String) : Except PyErr String := do
  let (hd, hasAcc) := splitHeadAcc name.data
  let base ←
    (if hd.isEmpty || hd.all Char.isDigit then
      Except.error PyErr.indexError
    else
      match lookupCtx ctx (String.mk hd) with
      | some v => Except.ok v
      | none =>
        if lenient then Except.ok ("\x7b" ++ String.mk hd ++ "\x7d")
        else Except.error (PyErr.keyError (String.mk hd)))
  if hasAcc then Except.error PyErr.attributeError else Except.ok base

/-- Alignment characters of the format-spec mini-language. -/
def isAlignChar (c : Char) : Bool :=
  c == '<' || c == '>' || c == '^' || c == '='

/-- Pad a string to the requested width with the given fill and
alignment, defaulting to left alignment as Python does for strings. -/
def padTo (v : List Char) (fill : Char) (align : Char) (width : Nat) : List Char :=
  if v.length ≥ width then v
  else
    let padn := width - v.length
    if align == '>' then List.replicate padn fill ++ v
    else if align == '^' then
      List.replicate (padn / 2) fill ++ v ++ List.replicate (padn - padn / 2) fill
    else v ++ List.replicate padn fill

/-- Apply a (fully expanded) format spec to a string value, as
format(value, spec) does for str: [[fill]align][width][.precision][s],
with sign, alternate form, zero padding, grouping and numeric type codes
rejected for strings. -/
def applySpec (v : String) (spec : String) : Except PyErr String :=
  if spec.isEmpty then .ok v
  else
    let (fill, align, rest) :=
      match spec.data with
      | c1 :: c2 :: rest =>
        if isAlignChar c2 then (c1, some c2, rest)
        else if isAlignChar c1 then (' ', some c1, c2 :: rest)
        else (' ', none, c1 :: c2 :: rest)
      | [c1] =>
        if isAlignChar c1 then (' ', some c1, [])
        else (' ', none, [c1])
      | [] => (' ', none, [])
    if align == some '=' then
      .error (.valueError "equals alignment not allowed in string format specifier")
    else
      match rest with
      | c :: _ =>
        if c == '+' || c == '-' || c == ' ' then
          .error (.valueError "sign not allowed in string format specifier")
        else if c == '#' then
          .error (.valueError "alternate form not allowed in string format specifier")
        else if c == '0' then
          .error (.valueError "zero padding not allowed in string format specifier")
        else
          applySpecTail v fill (align.getD '<') rest
      | [] => applySpecTail v fill (align.getD '<') rest
where
  /-- Width, optional precision and type code of a string format spec. -/
  applySpecTail (v : String) (fill align : Char) (rest : List Char) : Except PyErr String :=
    let wds := rest.takeWhile Char.isDigit
    let r2 := rest.dropWhile Char.isDigit
    let width := (String.mk wds).toNat?.getD 0
    match r2 with
    | ',' :: _ => .error (.valueError "cannot specify a comma with s")
    | '_' :: _ => .error (.valueError "cannot specify an underscore with s")
    | '.' :: pr =>
      let pds := pr.takeWhile Char.isDigit
      let r3 := pr.dropWhile Char.isDigit
      if pds.isEmpty then .error (.valueError "format specifier missing precision")
      else
        let prec := (String.mk pds).toNat?.getD 0
        match r3 with
        | [] => .ok (String.mk (padTo (v.data.take prec) fill align width))
        | ['s'] => .ok (String.mk (padTo (v.data.take prec) fill align width))
        | [_] => .error (.valueError "unknown format code for object of type str")
        | _ => .error (.valueError "invalid format specifier")
    | [] => .ok (String.mk (padTo v.data fill align width))
    | ['s'] => .ok (String.mk (padTo v.data fill align width))
    | [_] => .error (.valueError "unknown format code for object of type str")
    | _ => .error (.valueError "invalid format specifier")

/-- Evaluate a list of parsed segments against a context, with a
continuation used to expand one more level of replacement fields inside
format specs.  This is one level of Formatter._vformat. -/
def vfmtAt (lenient : Bool) (ctx : Ctx)
    (deeper : List Seg → Except PyErr String) :
    List Seg → Except PyErr String
  | [] => .ok ""
  | .lit s :: rest => do
    let r ← vfmtAt lenient ctx deeper rest
    .ok (s ++ r)
  | .field n cv sp :: rest => do
    let obj ← getFieldObj lenient ctx n
    let obj2 ← applyConv cv obj
    let specSegs ← parseFmt sp.data
    let sp2 ← deeper specSegs
    let piece ← applySpec obj2 sp2
    let r ← vfmtAt lenient ctx deeper rest
    .ok (piece ++ r)

/-- Formatter._vformat with an explicit recursion budget for format-spec
expansion: at budget zero any further replacement field raises the
max-string-recursion ValueError. -/
def vfmtFuel (lenient : Bool) (ctx : Ctx) : Nat → List Seg → Except PyErr String
  | 0, segs =>
    vfmtAt lenient ctx (fun _ => .error (.valueError "max string recursion exceeded")) segs
  | f + 1, segs => vfmtAt lenient ctx (fun sp => vfmtFuel lenient ctx f sp) segs

/-- Errors surfaced by ConfigContext.resolve_str: either the CollectorError
it raises itself in strict mode when a keyword is missing (carrying the
missing key named in the message and the template being resolved), or an
uncaught Python exception. -/
inductive ResolveError where
  | collectorError (missingKey : String) (text : String)
  | pyError (e : PyErr)
deriving Repr, DecidableEq

/-- ConfigContext.resolve_str: merge the contexts, then format the
template.  Strict mode is text.format(**ctx), with a raised KeyError
converted to a CollectorError naming the missing key; lenient mode is
SafeFormatter().format(text, **ctx), which substitutes the brace-wrapped
name for a missing keyword.  All other exceptions propagate unchanged in
both modes. -/
def resolve_str (base extra : Ctx) (strict : Bool) (text : String) :
    Except ResolveError String :=
  let ctx := mergedContext base extra
  match parseFmt text.data with
  | .error e => .error (.pyError e)
  | .ok segs =>
    match vfmtFuel (!strict) ctx 2 segs with
    | .ok out => .ok out
    | .error (.keyError k) =>
      if strict then .error (.collectorError k text)
      else .error (.pyError (.keyError k))
    | .error e => .error (.pyError e)

/-! ## resolve_dict -/

/-- A YAML/JSON-like configuration value. -/
inductive ConfigVal where
  | str (s : String)
  | intV (n : Int)
  | boolV (b : Bool)
  | null
  | list (xs : List ConfigVal)
  | dict (entries : List (String × ConfigVal))
deriving Repr

/-- ConfigContext.resolve_dict: walk the entries of a dict, resolving
string values with resolve_str, recursing into dict values, and passing
every other value (including lists) through unchanged.  The first raised
exception propagates. -/
def resolve_dict (base extra : Ctx) (strict : Bool) :
    List (String × ConfigVal) → Except ResolveError (List (String × ConfigVal))
  | [] => .ok []
  | (k, ConfigVal.str s) :: rest => do
    let s2 ← resolve_str base extra strict s
    let r ← resolve_dict base extra strict rest
    .ok ((k, ConfigVal.str s2) :: r)
  | (k, ConfigVal.dict d) :: rest => do
    let d2 ← resolve_dict base extra strict d
    let r ← resolve_dict base extra strict rest
    .ok ((k, ConfigVal.dict d2) :: r)
  | (k, v) :: rest => do
    let r ← resolve_dict base extra strict rest
    .ok ((k, v) :: r)

/-! ## Local spool and Azure flush engine (storage.py) -/

/-- One part file in a spool directory: its file name and its byte
content (one serialized record). -/
structure PartFile where
  name : String
  data : String
deriving Repr, DecidableEq

/-- One spool directory under the spool root: its path relative to the
root (always of the form blobPath ++ ".parts") and the part files it
holds.  A directory listing is an unordered set of files; the list order
here is merely the representation, and flush_spool re-sorts it. -/
structure SpoolDir where
  path : String
  parts : List PartFile
deriving Repr, DecidableEq

/-- Kinds of Azure blob at a remote path. -/
inductive BlobKind where
  | append
  | block
deriving Repr, DecidableEq

/-- A remote blob: its kind and the blocks appended so far, in order. -/
structure Blob where
  kind : BlobKind
  blocks : List String
deriving Repr, DecidableEq

/-- The remote container: a map from blob path to blob. -/
abbrev AzureState := List (String × Blob)

/-- Look up a blob by path (blob.exists / reading the blob). -/
def azLookup (st : AzureState) (p : String) : Option Blob :=
  (st.find? (fun kv => kv.1 == p)).map (fun kv => kv.2)

/-- Replace the blob stored at a path (no-op when absent). -/
def azUpdate (st : AzureState) (p : String) (b : Blob) : AzureState :=
  st.map (fun kv => if kv.1 == p then (p, b) else kv)

/-- Create a fresh empty append blob at a path (blob.create_append_blob,
only ever called when the path is absent). -/
def azCreateAppend (st : AzureState) (p : String) : AzureState :=
  st ++ [(p, ⟨BlobKind.append, []⟩)]

/-- Append one block to the blob at a path (blob.append_block): the
service rejects the call when the path is absent or holds a blob that is
not an append blob. -/
def azAppend (st : AzureState) (p : String) (d : String) : Option AzureState :=
  match azLookup st p with
  | some b =>
    if b.kind = BlobKind.append then
      some (azUpdate st p ⟨BlobKind.append, b.blocks ++ [d]⟩)
    else none
  | none => none

/-- Environment of one flush_spool invocation: the connection string and
SDK availability read at entry, whether constructing the
BlobServiceClient succeeds, and injected transient outcomes for the
append_block and unlink calls, keyed by part-file name. -/
structure FlushEnv where
  connStr : Option String
  sdkAvailable : Bool
  initOk : Bool
  appendOk : String → Bool
  unlinkOk : String → Bool

/-- The gate conditions under which flush_spool reaches the per-directory
work: a truthy connection string, an importable SDK and a successfully
constructed client. -/
def goodGate (env : FlushEnv) : Prop :=
  (∃ c, env.connStr = some c ∧ c ≠ "") ∧ env.sdkAvailable = true ∧ env.initOk = true

/-- Result of per-directory part processing: counts, the updated store
and the part files still on disk. -/
structure DirResult where
  flushed : Nat
  failed : Nat
  store : AzureState
  remaining : List PartFile
deriving Repr, DecidableEq

/-- The per-part loop of flush_spool (storage.py lines 117-124): read the
part, append it as one block, then delete the local file; any failure is
caught, counted as failed and leaves the file in place.  A failure of the
local delete after a successful append still counts the part as failed
and keeps the file, although the block has been appended. -/
def flushParts (env : FlushEnv) (bp : String) :
    List PartFile → AzureState → DirResult
  | [], st => ⟨0, 0, st, []⟩
  | p :: rest, st =>
    if env.appendOk p.name then
      match azAppend st bp p.data with
      | some st2 =>
        if env.unlinkOk p.name then
          let r := flushParts env bp rest st2
          ⟨r.flushed + 1, r.failed, r.store, r.remaining⟩
        else
          let r := flushParts env bp rest st2
          ⟨r.flushed, r.failed + 1, r.store, p :: r.remaining⟩
      | none =>
        let r := flushParts env bp rest st
        ⟨r.flushed, r.failed + 1, r.store, p :: r.remaining⟩
    else
      let r := flushParts env bp rest st
      ⟨r.flushed, r.failed + 1, r.store, p :: r.remaining⟩

/-- Lexicographic code-point order on character lists: the order Python
uses to compare the (equal-directory) path strings of part files. -/
def lexLe : List Char → List Char → Bool
  | [], _ => true
  | _ :: _, [] => false
  | a :: as, b :: bs =>
    if a < b then true
    else if b < a then false
    else lexLe as bs

/-- Insert a part file into a name-sorted list, keeping it sorted. -/
def insertPart (p : PartFile) : List PartFile → List PartFile
  | [] => [p]
  | q :: rest =>
    if lexLe p.name.data q.name.data then p :: q :: rest
    else q :: insertPart p rest

/-- Sort the part files of a directory by file name, as
sorted(parts_dir.glob(...)) does (names are timestamp-prefixed, so this
is chronological order). -/
def sortParts : List PartFile → List PartFile
  | [] => []
  | p :: rest => insertPart p (sortParts rest)

lemma length_insertPart (p : PartFile) (l : List PartFile) :
    (insertPart p l).length = l.length + 1 := by
  induction l with
  | nil => rfl
  | cons q rest ih =>
    by_cases hq : lexLe p.name.data q.name.data = true
    · simp [insertPart, hq]
    · simp [insertPart, hq, ih]

lemma length_sortParts (ps : List PartFile) :
    (sortParts ps).length = ps.length := by
  induction ps with
  | nil => rfl
  | cons p rest ih => simp [sortParts, length_insertPart, ih]

/-- Process one spool directory (the body of the for loop of flush_spool,
storage.py lines 99-129): list and sort the parts; an empty directory is
removed and skipped; otherwise ensure an append blob exists at the
target path (creating it only when the path is absent) and run the
per-part loop; afterwards the directory is removed iff it is empty. -/
def flushDir (env : FlushEnv) (dir : SpoolDir) (bp : String) (st : AzureState) : DirResult :=
  let ps := sortParts dir.parts
  if ps.isEmpty then ⟨0, 0, st, []⟩
  else
    let st1 :=
      match azLookup st bp with
      | none => azCreateAppend st bp
      | some _ => st
    flushParts env bp ps st1

/-- Overall result of a flush_spool call: the returned (flushed, failed)
counts, the surviving spool directories and the remote store. -/
structure FlushOutcome where
  flushed : Nat
  failed : Nat
  spool : List SpoolDir
  store : AzureState
deriving Repr, DecidableEq

/-- Walk the spool directories, flushing those selected and leaving the
others untouched; a flushed directory survives iff parts remain in it. -/
def flushWalk (env : FlushEnv) (sel : String → Bool) (bpOf : String → String) :
    List SpoolDir → AzureState → FlushOutcome
  | [], st => ⟨0, 0, [], st⟩
  | d :: rest, st =>
    if sel d.path then
      let r := flushDir env d (bpOf d.path) st
      let w := flushWalk env sel bpOf rest r.store
      ⟨r.flushed + w.flushed, r.failed + w.failed,
        (if r.remaining.isEmpty then w.spool else ⟨d.path, r.remaining⟩ :: w.spool),
        w.store⟩
    else
      let w := flushWalk env sel bpOf rest st
      ⟨w.flushed, w.failed, d :: w.spool, w.store⟩

/-- Suffix test on strings, by character list (the fnmatch suffix
pattern used through rglob). -/
def endsWithChars (s suf : String) : Bool :=
  decide (suf.data <:+ s.data)

/-- Python str.removesuffix. -/
def removeSuffixStr (s suf : String) : String :=
  if endsWithChars s suf then String.mk (s.data.take (s.data.length - suf.data.length))
  else s

/-- flush_spool (storage.py lines 65-131).  With no connection string
configured, or the Azure SDK unavailable, it is a no-op returning
(0, 0); a failure to construct the client returns (0, 1).  With an
explicit target it processes only that target directory (using the
target path as blob path); otherwise it sweeps every directory matching
the rglob pattern *.jsonl.parts, deriving each blob path by stripping
the .parts suffix. -/
def flush_spool (env : FlushEnv) (spool : List SpoolDir) (st : AzureState)
    (target : Option String) : FlushOutcome :=
  if env.connStr = none ∨ env.connStr = some "" then ⟨0, 0, spool, st⟩
  else if env.sdkAvailable = false then ⟨0, 0, spool, st⟩
  else if env.initOk = false then ⟨0, 1, spool, st⟩
  else
    match target with
    | some t => flushWalk env (fun p => p == t ++ ".parts") (fun _ => t) spool st
    | none =>
      flushWalk env (fun p => endsWithChars p ".jsonl.parts")
        (fun p => removeSuffixStr p ".parts") spool st

/-- write_to_spool (storage.py lines 26-36): create the directory
blobPath ++ ".parts" if needed and write one new part file into it.  The
file name (timestamp plus random suffix) is passed in explicitly. -/
def write_to_spool (spool : List SpoolDir) (blobPath fname data : String) :
    List SpoolDir :=
  let dp := blobPath ++ ".parts"
  if spool.any (fun d => d.path == dp) then
    spool.map (fun d => if d.path == dp then ⟨d.path, d.parts ++ [⟨fname, data⟩]⟩ else d)
  else spool ++ [⟨dp, [⟨fname, data⟩]⟩]

/-- Python truthy-or on optional strings (a or b). -/
def pyOr (a b : Option String) : Option String :=
  match a with
  | some s => if s ≠ "" then some s else b
  | none => b

/-- Python str() of an optional string as rendered in an f-string
(None prints as "None"). -/
def optStr : Option String → String
  | some s => s
  | none => "None"

/-- build_bronze_path (storage.py lines 40-63): assemble
prefix/system/dataset/dt=DT/filename, where the file name carries the
entity, an optional unique node id, the date and the .jsonl suffix. -/
def build_bronze_path (bronzePre storSystem storDataset : Option String)
    (cfgSource cfgEntity node : Option String) (dt : String) : String :=
  let pre := bronzePre.getD "bronze"
  let system := pyOr storSystem cfgSource
  let dataset := pyOr storDataset cfgEntity
  let fname :=
    match node with
    | some n =>
      if n ≠ "" then optStr cfgEntity ++ "_" ++ n ++ "_" ++ dt ++ ".jsonl"
      else optStr cfgEntity ++ "_" ++ dt ++ ".jsonl"
    | none => optStr cfgEntity ++ "_" ++ dt ++ ".jsonl"
  pre ++ "/" ++ optStr system ++ "/" ++ optStr dataset ++ "/dt=" ++ dt ++ "/" ++ fname

/-! ## Scheduler due-ness (scheduler.py should_run) -/

/-- should_run (scheduler.py lines 23-34): a falsy configured interval
(absent, or zero) makes the job always due; a job with no recorded
last-dispatch timestamp is due; otherwise the job is due iff the elapsed
time since last dispatch is at least the interval.  Times and intervals
are modelled as integers (exact arithmetic). -/
def should_run (interval : Option Int) (lastRun : Option Int) (now : Int) : Bool :=
  match interval with
  | none => true
  | some i =>
    if i = 0 then true
    else
      match lastRun with
      | none => true
      | some t => decide (now - t ≥ i)

/-! ## Loop-mode item processing (collector.py run_collector) -/

/-- A JSON scalar value of a listed item, with Python truthiness. -/
inductive ItemVal where
  | vNone
  | vStr (s : String)
  | vInt (n : Int)
  | vBool (b : Bool)
deriving Repr, DecidableEq

/-- Python truthiness of an item value. -/
def ItemVal.falsy : ItemVal → Bool
  | .vNone => true
  | .vStr s => s == ""
  | .vInt n => n == 0
  | .vBool b => !b

/-- Python str() of an item value. -/
def ItemVal.pyStr : ItemVal → String
  | .vNone => "None"
  | .vStr s => s
  | .vInt n => toString n
  | .vBool b => if b then "True" else "False"

/-- A listed item: a JSON object, as a dict from field name to scalar. -/
abbrev Item := List (String × ItemVal)

/-- item.get(field): the first binding for the field, if any. -/
def itemGet (item : Item) (field : String) : Option ItemVal :=
  (item.find? (fun kv => kv.1 == field)).map (fun kv => kv.2)

/-- The extra context built for one item (collector.py lines 157-160):
the id under the key "id", updated with every field of the item,
stringified. -/
def itemContext (item : Item) (idv : ItemVal) : Ctx :=
  dictUpdateAll [("id", idv.pyStr)] (item.map (fun kv => (kv.1, kv.2.pyStr)))

/-- Processing of one listed item in loop mode (collector.py lines
152-167): read the id field; a missing or falsy id skips the item
entirely; otherwise resolve the item endpoint template strictly and
fetch it, catching any resolution or fetch error so that one bad item
never aborts the batch.  The result is the list of URLs fetched and the
list of records collected for this item. -/
def processItem (base : Ctx) (idField templ : String)
    (fetch : String → Except String String) (item : Item) :
    List String × List String :=
  match itemGet item idField with
  | none => ([], [])
  | some v =>
    if v.falsy then ([], [])
    else
      match resolve_str base (itemContext item v) true templ with
      | .error _ => ([], [])
      | .ok url =>
        match fetch url with
        | .error _ => ([url], [])
        | .ok d => ([url], [d])

/-- The loop over all listed items, concatenating fetched URLs and
collected records in list order. -/
def runLoopItems (base : Ctx) (idField templ : String)
    (fetch : String → Except String String) : List Item → List String × List String
  | [] => ([], [])
  | it :: rest =>
    let h := processItem base idField templ fetch it
    let r := runLoopItems base idField templ fetch rest
    (h.1 ++ r.1, h.2 ++ r.2)

/-! ## C7: scheduler due-ness -/

/-- C7 counterexample: the claim states that with a configured interval I
and a recorded last-dispatch time t the job is due iff now - t >= I; but
a configured interval of 0 is falsy in Python, so should_run returns
True even when now - t < 0, where the claimed iff demands not-due. -/
theorem should_run_zero_interval_cex :
    should_run (some 0) (some 1) 0 = true ∧ ¬ ((0 : Int) - 1 ≥ 0) := by
  constructor
  · rfl
  · decide

/-- C7 amended: a job with no configured interval is always due; a job
never dispatched before is due; a configured interval of 0 is falsy and
also makes the job always due; with a nonzero interval I and
last-dispatch time t, the job is due iff now - t >= I, equality at the
boundary counting as due. -/
theorem should_run_spec (interval lastRun : Option Int) (now : Int) :
    (interval = none → should_run interval lastRun now = true) ∧
    (lastRun = none → should_run interval lastRun now = true) ∧
    (interval = some 0 → should_run interval lastRun now = true) ∧
    (∀ i t, interval = some i → i ≠ 0 → lastRun = some t →
      (should_run interval lastRun now = true ↔ now - t ≥ i)) := by
  refine ⟨?_, ?_, ?_, ?_⟩
  · intro h; rw [h]; rfl
  · intro h
    cases interval with
    | none => rfl
    | some i =>
      rw [h]
      by_cases hi : i = 0 <;> simp [should_run, hi]
  · intro h; rw [h]; rfl
  · intro i t hi hine ht
    rw [hi, ht]
    simp [should_run, hine]

/-- Witness for the amended C7 at concrete inputs. -/
theorem should_run_spec_wit :
    should_run none (some 5) 7 = true ∧
    should_run (some 10) none 7 = true ∧
    should_run (some 0) (some 5) 7 = true ∧
    (should_run (some 10) (some 5) 15 = true ↔ (15 : Int) - 5 ≥ 10) := by
  refine ⟨?_, ?_, ?_, ?_⟩
  · exact (should_run_spec none (some 5) 7).1 rfl
  · exact (should_run_spec (some 10) none 7).2.1 rfl
  · exact (should_run_spec (some 0) (some 5) 7).2.2.1 rfl
  · exact (should_run_spec (some 10) (some 5) 15).2.2.2 10 5 rfl (by decide) rfl

/-! ## C8: flush_spool gating -/

/-- C8: with no connection string configured (unset or empty) the flush
is a no-op returning (0, 0); likewise when the Azure SDK is unavailable;
and when the connection string is present but constructing the client
fails, the whole invocation aborts with exactly one reported failure,
(0, 1), regardless of how many spool directories and parts exist. -/
theorem flush_spool_gates (env : FlushEnv) (spool : List SpoolDir) (st : AzureState)
    (target : Option String) :
    ((env.connStr = none ∨ env.connStr = some "") →
      flush_spool env spool st target = ⟨0, 0, spool, st⟩) ∧
    (∀ c, env.connStr = some c → c ≠ "" → env.sdkAvailable = false →
      flush_spool env spool st target = ⟨0, 0, spool, st⟩) ∧
    (∀ c, env.connStr = some c → c ≠ "" → env.sdkAvailable = true → env.initOk = false →
      flush_spool env spool st target = ⟨0, 1, spool, st⟩) := by
  refine ⟨?_, ?_, ?_⟩
  · intro h
    simp [flush_spool, h]
  · intro c hc hne hsdk
    simp [flush_spool, hc, hne, hsdk]
  · intro c hc hne hsdk hinit
    simp [flush_spool, hc, hne, hsdk, hinit]

/-- Witness for C8 at concrete inputs, with a nonempty spool to show the
client-construction failure is reported once, not per part. -/
theorem flush_spool_gates_wit :
    flush_spool ⟨none, true, true, fun _ => true, fun _ => true⟩
      [⟨"a.jsonl.parts", [⟨"p1", "d1"⟩, ⟨"p2", "d2"⟩]⟩] [] none
      = ⟨0, 0, [⟨"a.jsonl.parts", [⟨"p1", "d1"⟩, ⟨"p2", "d2"⟩]⟩], []⟩ ∧
    flush_spool ⟨some "cs", false, true, fun _ => true, fun _ => true⟩
      [⟨"a.jsonl.parts", [⟨"p1", "d1"⟩, ⟨"p2", "d2"⟩]⟩] [] none
      = ⟨0, 0, [⟨"a.jsonl.parts", [⟨"p1", "d1"⟩, ⟨"p2", "d2"⟩]⟩], []⟩ ∧
    flush_spool ⟨some "cs", true, false, fun _ => true, fun _ => true⟩
      [⟨"a.jsonl.parts", [⟨"p1", "d1"⟩, ⟨"p2", "d2"⟩]⟩] [] none
      = ⟨0, 1, [⟨"a.jsonl.parts", [⟨"p1", "d1"⟩, ⟨"p2", "d2"⟩]⟩], []⟩ := by
  refine ⟨?_, ?_, ?_⟩
  · exact (flush_spool_gates ⟨none, true, true, fun _ => true, fun _ => true⟩
      [⟨"a.jsonl.parts", [⟨"p1", "d1"⟩, ⟨"p2", "d2"⟩]⟩] [] none).1 (Or.inl rfl)
  · exact (flush_spool_gates ⟨some "cs", false, true, fun _ => true, fun _ => true⟩
      [⟨"a.jsonl.parts", [⟨"p1", "d1"⟩, ⟨"p2", "d2"⟩]⟩] [] none).2.1 "cs" rfl (by decide) rfl
  · exact (flush_spool_gates ⟨some "cs", true, false, fun _ => true, fun _ => true⟩
      [⟨"a.jsonl.parts", [⟨"p1", "d1"⟩, ⟨"p2", "d2"⟩]⟩] [] none).2.2 "cs" rfl (by decide) rfl rfl

/-! ## C10: falsy ids are skipped silently in loop mode -/

/-- C10: a listed item whose id field is missing, or whose id value is
falsy (None, 0, False or the empty string), is skipped silently: no
detail fetch is attempted, no record is collected, no error is produced,
and the rest of the batch is processed exactly as if the item were not
there. -/
theorem loop_skips_falsy_id (base : Ctx) (idField templ : String)
    (fetch : String → Except String String) (item : Item) (rest : List Item)
    (h : itemGet item idField = none ∨
      ∃ v, itemGet item idField = some v ∧ v.falsy = true) :
    processItem base idField templ fetch item = ([], []) ∧
    runLoopItems base idField templ fetch (item :: rest) =
      runLoopItems base idField templ fetch rest := by
  have hp : processItem base idField templ fetch item = ([], []) := by
    rcases h with h | ⟨v, hv, hf⟩
    · simp [processItem, h]
    · simp [processItem, hv, hf]
  refine ⟨hp, ?_⟩
  simp [runLoopItems, hp]

/-- Witness for C10: an item with id 0 contributes no fetch and no
record. -/
theorem loop_skips_falsy_id_wit :
    processItem [] "id" "/items/\x7bid\x7d" (fun u => .ok u) [("id", ItemVal.vInt 0)] = ([], []) ∧
    runLoopItems [] "id" "/items/\x7bid\x7d" (fun u => .ok u)
      [[("id", ItemVal.vInt 0)], [("id", ItemVal.vInt 7)]] =
      runLoopItems [] "id" "/items/\x7bid\x7d" (fun u => .ok u) [[("id", ItemVal.vInt 7)]] :=
  loop_skips_falsy_id [] "id" "/items/\x7bid\x7d" (fun u => .ok u)
    [("id", ItemVal.vInt 0)] [[("id", ItemVal.vInt 7)]]
    (Or.inr ⟨ItemVal.vInt 0, rfl, rfl⟩)

/-! ## C4: resolve_dict structure -/

/-- How one entry of a successfully resolved dict relates to the
corresponding input entry: same key, and the value is the resolve_str
image of a string, the recursive resolve_dict image of a dict, or -- for
every other value, lists included -- the input value unchanged. -/
def entryResolved (base extra : Ctx) (strict : Bool) :
    (String × ConfigVal) → (String × ConfigVal) → Prop := fun src out =>
  out.1 = src.1 ∧
  ((∃ s s2, src.2 = ConfigVal.str s ∧ resolve_str base extra strict s = .ok s2 ∧
      out.2 = ConfigVal.str s2) ∨
   (∃ d d2, src.2 = ConfigVal.dict d ∧ resolve_dict base extra strict d = .ok d2 ∧
      out.2 = ConfigVal.dict d2) ∨
   ((∀ s, src.2 ≠ ConfigVal.str s) ∧ (∀ d, src.2 ≠ ConfigVal.dict d) ∧ out.2 = src.2))

/-- C4 counterexample: the claim states that string leaves inside
sequence values are resolved as well; but resolve_dict passes list
values through unchanged, so with node bound to hl2 the string
placeholder inside the list survives instead of becoming hl2. -/
theorem resolve_dict_list_cex :
    resolve_dict [("node", "hl2")] [] true [("a", ConfigVal.list [ConfigVal.str "\x7bnode\x7d"])]
      = .ok [("a", ConfigVal.list [ConfigVal.str "\x7bnode\x7d"])] ∧
    resolve_dict [("node", "hl2")] [] true [("a", ConfigVal.list [ConfigVal.str "\x7bnode\x7d"])]
      ≠ .ok [("a", ConfigVal.list [ConfigVal.str "hl2"])] := by
  have h1 : resolve_dict [("node", "hl2")] [] true
      [("a", ConfigVal.list [ConfigVal.str "\x7bnode\x7d"])]
      = .ok [("a", ConfigVal.list [ConfigVal.str "\x7bnode\x7d"])] := by
    simp [resolve_dict]; rfl
  refine ⟨h1, ?_⟩
  rw [h1]
  simp

/-- C4 amended: a successful resolve_dict returns a new document that is
entrywise related to the input -- same keys in the same order, string
values resolved through resolve_str, nested dict values resolved
recursively, and every other value (sequences included, whose string
elements are NOT resolved) passed through unchanged; in particular every
list-valued entry of the input reappears verbatim in the output.  The
input document is never mutated (the model is pure). -/
theorem resolve_dict_shape (base extra : Ctx) (strict : Bool)
    (d d2 : List (String × ConfigVal))
    (h : resolve_dict base extra strict d = .ok d2) :
    List.Forall₂ (entryResolved base extra strict) d d2 ∧
    (∀ k xs, (k, ConfigVal.list xs) ∈ d → (k, ConfigVal.list xs) ∈ d2) := by
  induction d generalizing d2 with
  | nil =>
    simp [resolve_dict] at h
    subst h
    exact ⟨List.Forall₂.nil, by simp⟩
  | cons kv rest ih =>
    obtain ⟨k, v⟩ := kv
    cases v with
    | str s =>
      simp only [resolve_dict] at h
      cases hs : resolve_str base extra strict s with
      | error e => rw [hs] at h; cases h
      | ok s2 =>
        rw [hs] at h
        cases hr : resolve_dict base extra strict rest with
        | error e => rw [hr] at h; cases h
        | ok r =>
          rw [hr] at h
          have h2 : Except.ok ((k, ConfigVal.str s2) :: r) = Except.ok d2 := h
          injection h2 with h3
          subst h3
          obtain ⟨ihf, ihm⟩ := ih r hr
          refine ⟨List.Forall₂.cons ⟨rfl, Or.inl ⟨s, s2, rfl, hs, rfl⟩⟩ ihf, ?_⟩
          intro k2 xs hmem
          rcases List.mem_cons.mp hmem with heq | hmem2
          · exact absurd (congrArg Prod.snd heq) (by simp)
          · exact List.mem_cons_of_mem _ (ihm k2 xs hmem2)
    | dict dd =>
      simp only [resolve_dict] at h
      cases hs : resolve_dict base extra strict dd with
      | error e => rw [hs] at h; cases h
      | ok dd2 =>
        rw [hs] at h
        cases hr : resolve_dict base extra strict rest with
        | error e => rw [hr] at h; cases h
        | ok r =>
          rw [hr] at h
          have h2 : Except.ok ((k, ConfigVal.dict dd2) :: r) = Except.ok d2 := h
          injection h2 with h3
          subst h3
          obtain ⟨ihf, ihm⟩ := ih r hr
          refine ⟨List.Forall₂.cons ⟨rfl, Or.inr (Or.inl ⟨dd, dd2, rfl, hs, rfl⟩)⟩ ihf, ?_⟩
          intro k2 xs hmem
          rcases List.mem_cons.mp hmem with heq | hmem2
          · exact absurd (congrArg Prod.snd heq) (by simp)
          · exact List.mem_cons_of_mem _ (ihm k2 xs hmem2)
    | intV n =>
      simp only [resolve_dict] at h
      cases hr : resolve_dict base extra strict rest with
      | error e => rw [hr] at h; cases h
      | ok r =>
        rw [hr] at h
        have h2 : Except.ok ((k, ConfigVal.intV n) :: r) = Except.ok d2 := h
        injection h2 with h3
        subst h3
        obtain ⟨ihf, ihm⟩ := ih r hr
        refine ⟨List.Forall₂.cons ⟨rfl, Or.inr (Or.inr ⟨by simp, by simp, rfl⟩)⟩ ihf, ?_⟩
        intro k2 xs hmem
        rcases List.mem_cons.mp hmem with heq | hmem2
        · exact absurd (congrArg Prod.snd heq) (by simp)
        · exact List.mem_cons_of_mem _ (ihm k2 xs hmem2)
    | boolV b =>
      simp only [resolve_dict] at h
      cases hr : resolve_dict base extra strict rest with
      | error e => rw [hr] at h; cases h
      | ok r =>
        rw [hr] at h
        have h2 : Except.ok ((k, ConfigVal.boolV b) :: r) = Except.ok d2 := h
        injection h2 with h3
        subst h3
        obtain ⟨ihf, ihm⟩ := ih r hr
        refine ⟨List.Forall₂.cons ⟨rfl, Or.inr (Or.inr ⟨by simp, by simp, rfl⟩)⟩ ihf, ?_⟩
        intro k2 xs hmem
        rcases List.mem_cons.mp hmem with heq | hmem2
        · exact absurd (congrArg Prod.snd heq) (by simp)
        · exact List.mem_cons_of_mem _ (ihm k2 xs hmem2)
    | null =>
      simp only [resolve_dict] at h
      cases hr : resolve_dict base extra strict rest with
      | error e => rw [hr] at h; cases h
      | ok r =>
        rw [hr] at h
        have h2 : Except.ok ((k, ConfigVal.null) :: r) = Except.ok d2 := h
        injection h2 with h3
        subst h3
        obtain ⟨ihf, ihm⟩ := ih r hr
        refine ⟨List.Forall₂.cons ⟨rfl, Or.inr (Or.inr ⟨by simp, by simp, rfl⟩)⟩ ihf, ?_⟩
        intro k2 xs hmem
        rcases List.mem_cons.mp hmem with heq | hmem2
        · exact absurd (congrArg Prod.snd heq) (by simp)
        · exact List.mem_cons_of_mem _ (ihm k2 xs hmem2)
    | list xs0 =>
      simp only [resolve_dict] at h
      cases hr : resolve_dict base extra strict rest with
      | error e => rw [hr] at h; cases h
      | ok r =>
        rw [hr] at h
        have h2 : Except.ok ((k, ConfigVal.list xs0) :: r) = Except.ok d2 := h
        injection h2 with h3
        subst h3
        obtain ⟨ihf, ihm⟩ := ih r hr
        refine ⟨List.Forall₂.cons ⟨rfl, Or.inr (Or.inr ⟨by simp, by simp, rfl⟩)⟩ ihf, ?_⟩
        intro k2 xs hmem
        rcases List.mem_cons.mp hmem with heq | hmem2
        · exact List.mem_cons.mpr (Or.inl heq)
        · exact List.mem_cons_of_mem _ (ihm k2 xs hmem2)

/-- Witness for the amended C4 at a concrete document mixing a string, a
nested dict, an int and a list. -/
theorem resolve_dict_shape_wit :
    List.Forall₂ (entryResolved [("node", "hl2")] [] true)
      [("u", ConfigVal.str "\x7bnode\x7d"), ("n", ConfigVal.intV 3),
        ("l", ConfigVal.list [ConfigVal.str "\x7bnode\x7d"]),
        ("d", ConfigVal.dict [("v", ConfigVal.str "\x7bNODE\x7d")])]
      [("u", ConfigVal.str "hl2"), ("n", ConfigVal.intV 3),
        ("l", ConfigVal.list [ConfigVal.str "\x7bnode\x7d"]),
        ("d", ConfigVal.dict [("v", ConfigVal.str "HL2")])] ∧
    ("l", ConfigVal.list [ConfigVal.str "\x7bnode\x7d"]) ∈
      ([("u", ConfigVal.str "hl2"), ("n", ConfigVal.intV 3),
        ("l", ConfigVal.list [ConfigVal.str "\x7bnode\x7d"]),
        ("d", ConfigVal.dict [("v", ConfigVal.str "HL2")])] :
          List (String × ConfigVal)) := by
  have h := resolve_dict_shape [("node", "hl2")] [] true
    [("u", ConfigVal.str "\x7bnode\x7d"), ("n", ConfigVal.intV 3),
      ("l", ConfigVal.list [ConfigVal.str "\x7bnode\x7d"]),
      ("d", ConfigVal.dict [("v", ConfigVal.str "\x7bNODE\x7d")])]
    [("u", ConfigVal.str "hl2"), ("n", ConfigVal.intV 3),
      ("l", ConfigVal.list [ConfigVal.str "\x7bnode\x7d"]),
      ("d", ConfigVal.dict [("v", ConfigVal.str "HL2")])]
    (by
      simp only [resolve_dict]
      rw [show resolve_str [("node", "hl2")] [] true "\x7bnode\x7d" = .ok "hl2" from by decide]
      rw [show resolve_str [("node", "hl2")] [] true "\x7bNODE\x7d" = .ok "HL2" from by decide]
      rfl)
  exact ⟨h.1, h.2 "l" [ConfigVal.str "\x7bnode\x7d"] (by simp)⟩

/-! ## C5 and C6: resolve_str in lenient and strict mode -/

/-- A simple named field name: nonempty, not all digits (which would be
a positional reference), and free of attribute/index accessors. -/
def simpleName (n : String) : Bool :=
  !n.data.isEmpty && !(n.data.all Char.isDigit) &&
    n.data.all (fun c => !(c == '.') && !(c == '['))

/-- A segment that is literal text or a simple named replacement field
with no conversion and no format spec: the placeholder form
documented by the specification. -/
def simpleNamedSeg : Seg → Bool
  | .lit _ => true
  | .field n conv spec => conv.isNone && (spec == "") && simpleName n

/-- Modelled from the spec: the output of lenient resolution, with every
present key substituted and every absent placeholder left verbatim in
its brace-wrapped input form. -/
def lenientRenderSpec (ctx : Ctx) : List Seg → String
  | [] => ""
  | .lit s :: rest => s ++ lenientRenderSpec ctx rest
  | .field n _ _ :: rest =>
    (match lookupCtx ctx n with
     | some v => v
     | none => "\x7b" ++ n ++ "\x7d") ++ lenientRenderSpec ctx rest

/-- Modelled from the spec: the output of strict resolution over a
complete context, with every placeholder substituted by its context
value. -/
def strictRenderSpec (ctx : Ctx) : List Seg → String
  | [] => ""
  | .lit s :: rest => s ++ strictRenderSpec ctx rest
  | .field n _ _ :: rest => (lookupCtx ctx n).getD "" ++ strictRenderSpec ctx rest

/-- The first replacement-field key, in left-to-right order, that is
absent from the context. -/
def firstMissingKey (ctx : Ctx) : List Seg → Option String
  | [] => none
  | .lit _ :: rest => firstMissingKey ctx rest
  | .field n _ _ :: rest =>
    match lookupCtx ctx n with
    | none => some n
    | some _ => firstMissingKey ctx rest

lemma ebind_ok {ε α β : Type} (a : α) (f : α → Except ε β) :
    (Except.ok a >>= f) = f a := rfl

lemma ebind_err {ε α β : Type} (e : ε) (f : α → Except ε β) :
    ((Except.error e : Except ε α) >>= f) = Except.error e := rfl

lemma splitHeadAcc_clean (cs : List Char)
    (h : cs.all (fun c => !(c == '.') && !(c == '[')) = true) :
    splitHeadAcc cs = (cs, false) := by
  induction cs with
  | nil => rfl
  | cons c rest ih =>
    simp only [List.all_cons, Bool.and_eq_true] at h
    obtain ⟨hc, hrest⟩ := h
    simp only [splitHeadAcc]
    rw [if_neg (by simp_all), ih hrest]

lemma getFieldObj_simple (lenient : Bool) (ctx : Ctx) (n : String)
    (h : simpleName n = true) :
    getFieldObj lenient ctx n =
      match lookupCtx ctx n with
      | some v => .ok v
      | none =>
        if lenient then .ok ("\x7b" ++ n ++ "\x7d") else .error (.keyError n) := by
  simp only [simpleName, Bool.and_eq_true, Bool.not_eq_true, Bool.not_eq_true'] at h
  obtain ⟨⟨hne, hd⟩, hc⟩ := h
  have hmk : String.mk n.data = n := rfl
  simp only [getFieldObj, splitHeadAcc_clean n.data hc, hne, hd, Bool.or_self,
    Bool.false_eq_true, if_false, hmk]
  cases hl : lookupCtx ctx n with
  | some v => rfl
  | none => cases lenient <;> rfl

lemma vfmtFuel_nil (lenient : Bool) (ctx : Ctx) (f : Nat) :
    vfmtFuel lenient ctx f [] = .ok "" := by
  cases f <;> rfl

lemma applySpec_empty (v : String) : applySpec v "" = .ok v := rfl

lemma vfmtAt_lenient_simple (ctx : Ctx) (deeper : List Seg → Except PyErr String)
    (segs : List Seg) (h0 : deeper [] = .ok "")
    (hs : ∀ sg ∈ segs, simpleNamedSeg sg = true) :
    vfmtAt true ctx deeper segs = .ok (lenientRenderSpec ctx segs) := by
  induction segs with
  | nil => rfl
  | cons sg rest ih =>
    have hrest : ∀ sg2 ∈ rest, simpleNamedSeg sg2 = true := fun sg2 hm =>
      hs sg2 (List.mem_cons_of_mem _ hm)
    have ihr := ih hrest
    cases sg with
    | lit s =>
      simp only [vfmtAt, ihr, lenientRenderSpec]
      rfl
    | field n cv sp =>
      have hsg := hs (.field n cv sp) (List.mem_cons_self _ _)
      simp only [simpleNamedSeg, Bool.and_eq_true, Option.isNone_iff_eq_none,
        beq_iff_eq] at hsg
      obtain ⟨⟨hcv, hsp⟩, hn⟩ := hsg
      subst hcv hsp
      simp only [vfmtAt, getFieldObj_simple true ctx n hn]
      cases hl : lookupCtx ctx n with
      | some v =>
        simp only [lenientRenderSpec, hl]
        show (do
          let obj2 ← applyConv none v
          let specSegs ← parseFmt "".data
          let sp2 ← deeper specSegs
          let piece ← applySpec obj2 sp2
          let r ← vfmtAt true ctx deeper rest
          Except.ok (piece ++ r)) = _
        rw [show applyConv none v = .ok v from rfl,
          show parseFmt "".data = Except.ok ([] : List Seg) from rfl]
        simp only [ebind_ok]
        rw [h0]
        simp only [ebind_ok, applySpec_empty, ihr]
      | none =>
        simp only [lenientRenderSpec, hl]
        show (do
          let obj2 ← applyConv none ("\x7b" ++ n ++ "\x7d")
          let specSegs ← parseFmt "".data
          let sp2 ← deeper specSegs
          let piece ← applySpec obj2 sp2
          let r ← vfmtAt true ctx deeper rest
          Except.ok (piece ++ r)) = _
        rw [show applyConv none ("\x7b" ++ n ++ "\x7d") = .ok ("\x7b" ++ n ++ "\x7d") from rfl,
          show parseFmt "".data = Except.ok ([] : List Seg) from rfl]
        simp only [ebind_ok]
        rw [h0]
        simp only [ebind_ok, applySpec_empty, ihr]

lemma vfmtAt_strict_simple (ctx : Ctx) (deeper : List Seg → Except PyErr String)
    (segs : List Seg) (h0 : deeper [] = .ok "")
    (hs : ∀ sg ∈ segs, simpleNamedSeg sg = true) :
    vfmtAt false ctx deeper segs =
      match firstMissingKey ctx segs with
      | some k => .error (.keyError k)
      | none => .ok (strictRenderSpec ctx segs) := by
  induction segs with
  | nil => rfl
  | cons sg rest ih =>
    have hrest : ∀ sg2 ∈ rest, simpleNamedSeg sg2 = true := fun sg2 hm =>
      hs sg2 (List.mem_cons_of_mem _ hm)
    have ihr := ih hrest
    cases sg with
    | lit s =>
      simp only [vfmtAt, ihr, firstMissingKey, strictRenderSpec]
      cases firstMissingKey ctx rest <;> rfl
    | field n cv sp =>
      have hsg := hs (.field n cv sp) (List.mem_cons_self _ _)
      simp only [simpleNamedSeg, Bool.and_eq_true, Option.isNone_iff_eq_none,
        beq_iff_eq] at hsg
      obtain ⟨⟨hcv, hsp⟩, hn⟩ := hsg
      subst hcv hsp
      simp only [vfmtAt, getFieldObj_simple false ctx n hn]
      cases hl : lookupCtx ctx n with
      | some v =>
        simp only [firstMissingKey, strictRenderSpec, hl]
        show (do
          let obj2 ← applyConv none v
          let specSegs ← parseFmt "".data
          let sp2 ← deeper specSegs
          let piece ← applySpec obj2 sp2
          let r ← vfmtAt false ctx deeper rest
          Except.ok (piece ++ r)) = _
        rw [show applyConv none v = .ok v from rfl,
          show parseFmt "".data = Except.ok ([] : List Seg) from rfl]
        simp only [ebind_ok]
        rw [h0]
        simp only [ebind_ok, applySpec_empty, ihr]
        cases firstMissingKey ctx rest <;> rfl
      | none =>
        simp only [firstMissingKey, hl]
        rfl

/-- C5 counterexample: the claim states that lenient resolution never
raises for any template string; but the template consisting of one
automatic-numbered field raises IndexError (SafeFormatter only shields
missing string keys, and resolve_str passes no positional arguments). -/
theorem resolve_str_lenient_cex :
    resolve_str [] [] false "\x7b\x7d" = .error (.pyError .indexError) := by decide

/-- C5 amended: for every template whose parsed segments are literal
text and simple named placeholders (no positional or auto-numbered
fields, no attribute/index access, no conversion, no format spec) and
every context, lenient resolution never raises: keys present in the
merged context are substituted and every placeholder whose key is absent
is returned byte-identical in its input form.  (General templates can
raise: see the counterexample.) -/
theorem resolve_str_lenient_simple (base extra : Ctx) (t : String) (segs : List Seg)
    (hp : parseFmt t.data = .ok segs)
    (hs : ∀ sg ∈ segs, simpleNamedSeg sg = true) :
    resolve_str base extra false t =
      .ok (lenientRenderSpec (mergedContext base extra) segs) := by
  have hv := vfmtAt_lenient_simple (mergedContext base extra)
    (fun sp => vfmtFuel true (mergedContext base extra) 1 sp) segs
    (vfmtFuel_nil true (mergedContext base extra) 1) hs
  have hv2 : vfmtFuel true (mergedContext base extra) 2 segs =
      .ok (lenientRenderSpec (mergedContext base extra) segs) := hv
  simp only [resolve_str, hp, Bool.not_false, hv2]

/-- Witness for the amended C5: a template with one present and one
absent placeholder resolves leniently without raising, substituting the
present key and leaving the absent one byte-identical. -/
theorem resolve_str_lenient_simple_wit :
    resolve_str [("node", "hl2")] [] false "\x7bnode\x7dx\x7bq\x7d" = .ok "hl2x\x7bq\x7d" := by
  have h := resolve_str_lenient_simple [("node", "hl2")] [] "\x7bnode\x7dx\x7bq\x7d"
    [Seg.field "node" none "", Seg.lit "x", Seg.field "q" none ""] (by decide) (by decide)
  rw [h]
  decide

/-- C6 counterexample: the claim states that strict resolution fails
with a CollectorError naming the first missing key iff some placeholder
key is absent from the merged context; but for the template starting
with an automatic-numbered field followed by a missing named key, the
missing key is absent while the call raises IndexError, not the claimed
CollectorError. -/
theorem resolve_str_strict_cex :
    resolve_str [] [] true "\x7b\x7d\x7bmissing\x7d" = .error (.pyError .indexError) ∧
    lookupCtx (mergedContext [] []) "missing" = none := by
  constructor
  · decide
  · decide

/-- C6 amended: for every template whose parsed segments are literal
text and simple named placeholders, strict resolution fails with a
CollectorError naming the first missing key iff some placeholder key is
absent from the merged context, and on success returns the template with
every placeholder substituted by its context value (no placeholder of
the template survives; brace characters may still reach the output from
brace escapes or from substituted values). -/
theorem resolve_str_strict_simple (base extra : Ctx) (t : String) (segs : List Seg)
    (hp : parseFmt t.data = .ok segs)
    (hs : ∀ sg ∈ segs, simpleNamedSeg sg = true) :
    (∀ k, firstMissingKey (mergedContext base extra) segs = some k →
      resolve_str base extra true t = .error (.collectorError k t)) ∧
    (firstMissingKey (mergedContext base extra) segs = none →
      resolve_str base extra true t =
        .ok (strictRenderSpec (mergedContext base extra) segs)) ∧
    ((∃ k, resolve_str base extra true t = .error (.collectorError k t)) ↔
      firstMissingKey (mergedContext base extra) segs ≠ none) := by
  have hv := vfmtAt_strict_simple (mergedContext base extra)
    (fun sp => vfmtFuel false (mergedContext base extra) 1 sp) segs
    (vfmtFuel_nil false (mergedContext base extra) 1) hs
  have hbase : resolve_str base extra true t =
      (match firstMissingKey (mergedContext base extra) segs with
       | some k => Except.error (ResolveError.collectorError k t)
       | none => Except.ok (strictRenderSpec (mergedContext base extra) segs)) := by
    have hv2 : vfmtFuel false (mergedContext base extra) 2 segs =
        (match firstMissingKey (mergedContext base extra) segs with
         | some k => .error (.keyError k)
         | none => .ok (strictRenderSpec (mergedContext base extra) segs)) := hv
    simp only [resolve_str, hp, Bool.not_true, hv2]
    cases firstMissingKey (mergedContext base extra) segs <;> rfl
  refine ⟨?_, ?_, ?_⟩
  · intro k hk
    rw [hbase, hk]
  · intro hk
    rw [hbase, hk]
  · constructor
    · rintro ⟨k, hk⟩ hnone
      rw [hbase, hnone] at hk
      cases hk
    · intro hne
      cases hk : firstMissingKey (mergedContext base extra) segs with
      | none => exact absurd hk hne
      | some k => exact ⟨k, by rw [hbase, hk]⟩

/-- Witness for the amended C6: a missing key yields the CollectorError
naming it, and a complete context yields the fully substituted output. -/
theorem resolve_str_strict_simple_wit :
    resolve_str [("node", "hl2")] [] true "\x7bnode\x7dx\x7bq\x7d"
      = .error (.collectorError "q" "\x7bnode\x7dx\x7bq\x7d") ∧
    resolve_str [("node", "hl2")] [] true "/s/\x7bnode\x7d"
      = .ok "/s/hl2" := by
  constructor
  · exact (resolve_str_strict_simple [("node", "hl2")] [] "\x7bnode\x7dx\x7bq\x7d"
      [Seg.field "node" none "", Seg.lit "x", Seg.field "q" none ""]
      (by decide) (by decide)).1 "q" (by decide)
  · have h := (resolve_str_strict_simple [("node", "hl2")] [] "/s/\x7bnode\x7d"
      [Seg.lit "/", Seg.lit "s", Seg.lit "/", Seg.field "node" none ""]
      (by decide) (by decide)).2.1 (by decide)
    rw [h]
    decide

/-! ## Flush engine lemmas -/

lemma azLookup_cons_pos (kv : String × Blob) (rest : AzureState) (p : String)
    (hk : (kv.1 == p) = true) : azLookup (kv :: rest) p = some kv.2 := by
  unfold azLookup
  rw [List.find?_cons_of_pos rest (show (fun kv => kv.1 == p) kv = true from hk)]
  rfl

lemma azLookup_cons_neg (kv : String × Blob) (rest : AzureState) (p : String)
    (hk : (kv.1 == p) = false) : azLookup (kv :: rest) p = azLookup rest p := by
  unfold azLookup
  rw [List.find?_cons_of_neg rest
    (show ¬ (fun kv => kv.1 == p) kv = true from by simp [hk])]

lemma azLookup_azUpdate_self (st : AzureState) (p : String) (b v : Blob)
    (h : azLookup st p = some b) : azLookup (azUpdate st p v) p = some v := by
  induction st with
  | nil => simp [azLookup] at h
  | cons kv rest ih =>
    by_cases hk : (kv.1 == p) = true
    · have hd : azUpdate (kv :: rest) p v = (p, v) :: azUpdate rest p v := by
        unfold azUpdate
        rw [List.map_cons]
        congr 1
        exact if_pos hk
      rw [hd, azLookup_cons_pos (p, v) _ p (by simp)]
    · have hk2 : (kv.1 == p) = false := by
        cases hx : kv.1 == p with
        | false => rfl
        | true => exact absurd hx hk
      have hd : azUpdate (kv :: rest) p v = kv :: azUpdate rest p v := by
        unfold azUpdate
        rw [List.map_cons]
        congr 1
        exact if_neg (by simp [hk2])
      rw [azLookup_cons_neg kv rest p hk2] at h
      rw [hd, azLookup_cons_neg kv _ p hk2]
      exact ih h

lemma azLookup_azCreateAppend_self (st : AzureState) (p : String)
    (h : azLookup st p = none) :
    azLookup (azCreateAppend st p) p = some ⟨BlobKind.append, []⟩ := by
  have hf : st.find? (fun kv => kv.1 == p) = none := by
    cases hf : st.find? (fun kv => kv.1 == p) with
    | none => rfl
    | some kv => simp [azLookup, hf] at h
  simp [azLookup, azCreateAppend, List.find?_append, hf]

lemma azAppend_append_kind (st : AzureState) (p d : String) (bl : List String)
    (h : azLookup st p = some ⟨BlobKind.append, bl⟩) :
    azAppend st p d = some (azUpdate st p ⟨BlobKind.append, bl ++ [d]⟩) := by
  simp [azAppend, h]

/-- Characterization of the per-part loop over an append blob: the
flushed count is the number of parts whose append and local delete both
succeed, the failed count and the surviving files are exactly the other
parts, and the blob receives, in order, the bytes of every part whose
append succeeds -- including parts whose local delete then fails. -/
lemma flushParts_append_char (env : FlushEnv) (bp : String) (ps : List PartFile) :
    ∀ (st : AzureState) (bl : List String),
      azLookup st bp = some ⟨BlobKind.append, bl⟩ →
      (flushParts env bp ps st).flushed =
        (ps.filter (fun q => env.appendOk q.name && env.unlinkOk q.name)).length ∧
      (flushParts env bp ps st).failed =
        (ps.filter (fun q => !(env.appendOk q.name && env.unlinkOk q.name))).length ∧
      (flushParts env bp ps st).remaining =
        ps.filter (fun q => !(env.appendOk q.name && env.unlinkOk q.name)) ∧
      azLookup (flushParts env bp ps st).store bp =
        some ⟨BlobKind.append,
          bl ++ (ps.filter (fun q => env.appendOk q.name)).map (fun q => q.data)⟩ := by
  induction ps with
  | nil =>
    intro st bl h
    simp [flushParts, h]
  | cons p rest ih =>
    intro st bl h
    by_cases hap : env.appendOk p.name = true
    · have happ := azAppend_append_kind st bp p.data bl h
      have hlook2 : azLookup (azUpdate st bp ⟨BlobKind.append, bl ++ [p.data]⟩) bp =
          some ⟨BlobKind.append, bl ++ [p.data]⟩ :=
        azLookup_azUpdate_self st bp _ _ h
      obtain ⟨ih1, ih2, ih3, ih4⟩ :=
        ih (azUpdate st bp ⟨BlobKind.append, bl ++ [p.data]⟩) (bl ++ [p.data]) hlook2
      by_cases hun : env.unlinkOk p.name = true
      · simp only [flushParts, hap, if_true, happ, hun]
        refine ⟨?_, ?_, ?_, ?_⟩
        · simp [List.filter_cons, hap, hun, ih1]
        · simp [List.filter_cons, hap, hun, ih2]
        · simp [List.filter_cons, hap, hun, ih3]
        · rw [ih4]
          simp [List.filter_cons, hap, List.append_assoc]
      · simp only [flushParts, hap, if_true, happ, hun, Bool.false_eq_true, if_false]
        refine ⟨?_, ?_, ?_, ?_⟩
        · simp [List.filter_cons, hap, hun, ih1]
        · simp [List.filter_cons, hap, hun, ih2]
        · simp [List.filter_cons, hap, hun, ih3]
        · rw [ih4]
          simp [List.filter_cons, hap, List.append_assoc]
    · obtain ⟨ih1, ih2, ih3, ih4⟩ := ih st bl h
      have hap2 : env.appendOk p.name = false := by
        cases hx : env.appendOk p.name with
        | false => rfl
        | true => exact absurd hx hap
      simp only [flushParts, hap2, Bool.false_eq_true, if_false]
      refine ⟨?_, ?_, ?_, ?_⟩
      · simp [List.filter_cons, hap2, ih1]
      · simp [List.filter_cons, hap2, ih2]
      · simp [List.filter_cons, hap2, ih3]
      · rw [ih4]
        simp [List.filter_cons, hap2]

/-- Over a blob of the wrong kind, every append is rejected by the
service: nothing is flushed, every part is counted failed and survives,
and the store is untouched. -/
lemma flushParts_block_char (env : FlushEnv) (bp : String) (ps : List PartFile) :
    ∀ (st : AzureState) (b : Blob), azLookup st bp = some b → b.kind = BlobKind.block →
      flushParts env bp ps st = ⟨0, ps.length, st, ps⟩ := by
  induction ps with
  | nil =>
    intro st b h hk
    simp [flushParts]
  | cons p rest ih =>
    intro st b h hk
    have hazz : azAppend st bp p.data = none := by
      simp [azAppend, h, hk]
    have ihr := ih st b h hk
    by_cases hap : env.appendOk p.name = true
    · simp [flushParts, hap, hazz, ihr]
    · have hap2 : env.appendOk p.name = false := by
        cases hx : env.appendOk p.name with
        | false => rfl
        | true => exact absurd hx hap
      simp [flushParts, hap2, ihr]

/-- With an explicit target and a single matching spool directory,
flush_spool under the good gate reduces to one flushDir call. -/
lemma flush_spool_target_single (env : FlushEnv) (t : String)
    (dparts : List PartFile) (st : AzureState) (hg : goodGate env) :
    flush_spool env [⟨t ++ ".parts", dparts⟩] st (some t) =
      ⟨(flushDir env ⟨t ++ ".parts", dparts⟩ t st).flushed,
       (flushDir env ⟨t ++ ".parts", dparts⟩ t st).failed,
       (if (flushDir env ⟨t ++ ".parts", dparts⟩ t st).remaining.isEmpty then []
        else [⟨t ++ ".parts", (flushDir env ⟨t ++ ".parts", dparts⟩ t st).remaining⟩]),
       (flushDir env ⟨t ++ ".parts", dparts⟩ t st).store⟩ := by
  obtain ⟨⟨c, hc, hne⟩, hsdk, hinit⟩ := hg
  simp [flush_spool, hc, hne, hsdk, hinit, flushWalk]

/-- The sorted parts of a nonempty directory listing are nonempty. -/
lemma sortParts_ne_nil (ps : List PartFile) (h : ps ≠ []) : sortParts ps ≠ [] := by
  intro hx
  apply h
  have h2 := congrArg List.length hx
  rw [length_sortParts] at h2
  exact List.length_eq_zero.mp h2

/-! ## C1: append success then unlink failure -/

/-- C1 counterexample: the claim states that a part whose append
succeeds but whose local delete fails is counted in flushedCount and not
in failedCount; but with one such part the flush returns (0, 1): the
part is counted failed, even though its bytes were appended (the block
is in the store) and the file remains. -/
theorem flush_unlinkFail_cex :
    flush_spool ⟨some "cs", true, true, fun _ => true, fun _ => false⟩
      [⟨"d.jsonl.parts", [⟨"a", "A"⟩]⟩] [] (some "d.jsonl")
      = ⟨0, 1, [⟨"d.jsonl.parts", [⟨"a", "A"⟩]⟩],
          [("d.jsonl", ⟨BlobKind.append, ["A"]⟩)]⟩ := by
  decide

/-- C1 amended: a part whose bytes are successfully appended but whose
local file deletion then fails is counted in failedCount (not in
flushedCount): the flushed count covers exactly the parts whose append
and delete both succeed and the failed count all others, with this part
among them.  Its bytes are nonetheless in the remote object while the
file survives on disk, so a later cycle may re-append the same bytes --
delivery is at-least-once, not exactly-once. -/
theorem flush_unlinkFail_counted_failed (env : FlushEnv) (t : String)
    (dparts pre post : List PartFile) (p : PartFile) (st : AzureState)
    (hg : goodGate env)
    (hsort : sortParts dparts = pre ++ p :: post)
    (hap : env.appendOk p.name = true) (hun : env.unlinkOk p.name = false)
    (hblob : azLookup st t = none) :
    (flush_spool env [⟨t ++ ".parts", dparts⟩] st (some t)).flushed =
      ((pre ++ p :: post).filter
        (fun q => env.appendOk q.name && env.unlinkOk q.name)).length ∧
    (flush_spool env [⟨t ++ ".parts", dparts⟩] st (some t)).failed =
      ((pre ++ p :: post).filter
        (fun q => !(env.appendOk q.name && env.unlinkOk q.name))).length ∧
    0 < (flush_spool env [⟨t ++ ".parts", dparts⟩] st (some t)).failed ∧
    (∃ rem, (flush_spool env [⟨t ++ ".parts", dparts⟩] st (some t)).spool =
      [⟨t ++ ".parts", rem⟩] ∧ p ∈ rem) ∧
    (∃ blocks,
      azLookup (flush_spool env [⟨t ++ ".parts", dparts⟩] st (some t)).store t =
        some ⟨BlobKind.append, blocks⟩ ∧ p.data ∈ blocks) := by
  have hbad : (!(env.appendOk p.name && env.unlinkOk p.name)) = true := by
    simp [hap, hun]
  have hmem : p ∈ pre ++ p :: post := List.mem_append_right _ (List.mem_cons_self _ _)
  have hne : (pre ++ p :: post).isEmpty = false := by
    cases pre <;> simp [List.isEmpty]
  have hcreate := azLookup_azCreateAppend_self st t hblob
  obtain ⟨h1, h2, h3, h4⟩ :=
    flushParts_append_char env t (pre ++ p :: post) (azCreateAppend st t) [] hcreate
  have hdir : flushDir env ⟨t ++ ".parts", dparts⟩ t st =
      flushParts env t (pre ++ p :: post) (azCreateAppend st t) := by
    simp [flushDir, hsort, hne, hblob]
  rw [flush_spool_target_single env t dparts st hg]
  have hpmem : p ∈ (pre ++ p :: post).filter
      (fun q => !(env.appendOk q.name && env.unlinkOk q.name)) :=
    List.mem_filter.mpr ⟨hmem, hbad⟩
  have hremne : (flushDir env ⟨t ++ ".parts", dparts⟩ t st).remaining.isEmpty = false := by
    rw [hdir, h3]
    cases hx : (pre ++ p :: post).filter
        (fun q => !(env.appendOk q.name && env.unlinkOk q.name)) with
    | nil => rw [hx] at hpmem; cases hpmem
    | cons a l => simp [List.isEmpty]
  refine ⟨?_, ?_, ?_, ?_, ?_⟩
  · show (flushDir env ⟨t ++ ".parts", dparts⟩ t st).flushed = _
    rw [hdir, h1]
  · show (flushDir env ⟨t ++ ".parts", dparts⟩ t st).failed = _
    rw [hdir, h2]
  · show 0 < (flushDir env ⟨t ++ ".parts", dparts⟩ t st).failed
    rw [hdir, h2]
    exact List.length_pos.mpr (fun hx => by rw [hx] at hpmem; cases hpmem)
  · refine ⟨(flushDir env ⟨t ++ ".parts", dparts⟩ t st).remaining, ?_, ?_⟩
    · show (if (flushDir env ⟨t ++ ".parts", dparts⟩ t st).remaining.isEmpty then _
        else _) = _
      rw [hremne]
      simp
    · rw [hdir, h3]
      exact hpmem
  · refine ⟨[] ++ ((pre ++ p :: post).filter
      (fun q => env.appendOk q.name)).map (fun q => q.data), ?_, ?_⟩
    · show azLookup (flushDir env ⟨t ++ ".parts", dparts⟩ t st).store t = _
      rw [hdir, h4]
    · simp only [List.nil_append]
      exact List.mem_map.mpr ⟨p, List.mem_filter.mpr ⟨hmem, hap⟩, rfl⟩

/-- Witness for the amended C1: two parts, the second with a failing
delete: counts are (1, 1), the second part survives and both blocks are
in the remote object. -/
theorem flush_unlinkFail_counted_failed_wit :
    (flush_spool ⟨some "cs", true, true, fun _ => true, fun n => n == "a"⟩
      [⟨"d.jsonl.parts", [⟨"a", "A"⟩, ⟨"b", "B"⟩]⟩] [] (some "d.jsonl")).flushed = 1 ∧
    (flush_spool ⟨some "cs", true, true, fun _ => true, fun n => n == "a"⟩
      [⟨"d.jsonl.parts", [⟨"a", "A"⟩, ⟨"b", "B"⟩]⟩] [] (some "d.jsonl")).failed = 1 ∧
    (∃ rem, (flush_spool ⟨some "cs", true, true, fun _ => true, fun n => n == "a"⟩
      [⟨"d.jsonl.parts", [⟨"a", "A"⟩, ⟨"b", "B"⟩]⟩] [] (some "d.jsonl")).spool =
        [⟨"d.jsonl" ++ ".parts", rem⟩] ∧ (⟨"b", "B"⟩ : PartFile) ∈ rem) := by
  have h := flush_unlinkFail_counted_failed
    ⟨some "cs", true, true, fun _ => true, fun n => n == "a"⟩ "d.jsonl"
    [⟨"a", "A"⟩, ⟨"b", "B"⟩] [⟨"a", "A"⟩] [] ⟨"b", "B"⟩ []
    ⟨⟨"cs", rfl, by decide⟩, rfl, rfl⟩ (by decide) rfl rfl rfl
  exact ⟨h.1.trans (by decide), h.2.1.trans (by decide), h.2.2.2.1⟩

/-! ## C3: type mismatch at the remote path -/

/-- C3: when the remote path already holds an object that is not an
append blob, the flush of that target fails loudly: every part append is
rejected by the service, the failure is surfaced in the failed count
(one per part, at least one), nothing is flushed, the remote object is
untouched and every part file stays on disk.  The mismatch is never
papered over by treating the object as appendable. -/
theorem flush_type_mismatch_fails (env : FlushEnv) (t : String)
    (dparts : List PartFile) (st : AzureState) (bl : List String)
    (hg : goodGate env) (hne : dparts ≠ [])
    (hblob : azLookup st t = some ⟨BlobKind.block, bl⟩) :
    (flush_spool env [⟨t ++ ".parts", dparts⟩] st (some t)).flushed = 0 ∧
    (flush_spool env [⟨t ++ ".parts", dparts⟩] st (some t)).failed = dparts.length ∧
    0 < (flush_spool env [⟨t ++ ".parts", dparts⟩] st (some t)).failed ∧
    (flush_spool env [⟨t ++ ".parts", dparts⟩] st (some t)).store = st ∧
    (flush_spool env [⟨t ++ ".parts", dparts⟩] st (some t)).spool =
      [⟨t ++ ".parts", sortParts dparts⟩] := by
  have hsne : sortParts dparts ≠ [] := sortParts_ne_nil dparts hne
  have hsE : (sortParts dparts).isEmpty = false := by
    cases hx : sortParts dparts with
    | nil => exact absurd hx hsne
    | cons a l => simp [List.isEmpty]
  have hchar := flushParts_block_char env t (sortParts dparts) st
    ⟨BlobKind.block, bl⟩ hblob rfl
  have hdir : flushDir env ⟨t ++ ".parts", dparts⟩ t st =
      ⟨0, (sortParts dparts).length, st, sortParts dparts⟩ := by
    simp [flushDir, hsE, hblob, hchar]
  rw [flush_spool_target_single env t dparts st hg]
  have hlen : (sortParts dparts).length = dparts.length := length_sortParts dparts
  refine ⟨?_, ?_, ?_, ?_, ?_⟩
  · show (flushDir env ⟨t ++ ".parts", dparts⟩ t st).flushed = 0
    rw [hdir]
  · show (flushDir env ⟨t ++ ".parts", dparts⟩ t st).failed = dparts.length
    rw [hdir]
    exact hlen
  · show 0 < (flushDir env ⟨t ++ ".parts", dparts⟩ t st).failed
    rw [hdir]
    simpa [hlen] using List.length_pos.mpr hne
  · show (flushDir env ⟨t ++ ".parts", dparts⟩ t st).store = st
    rw [hdir]
  · show (if (flushDir env ⟨t ++ ".parts", dparts⟩ t st).remaining.isEmpty then _
      else _) = _
    rw [hdir]
    simp only [hsE, Bool.false_eq_true, if_false]

/-- Witness for C3: a block blob at the target path makes a two-part
flush return (0, 2), leave both parts and not touch the store. -/
theorem flush_type_mismatch_fails_wit :
    (flush_spool ⟨some "cs", true, true, fun _ => true, fun _ => true⟩
      [⟨"d.jsonl.parts", [⟨"a", "A"⟩, ⟨"b", "B"⟩]⟩]
      [("d.jsonl", ⟨BlobKind.block, ["old"]⟩)] (some "d.jsonl")).flushed = 0 ∧
    (flush_spool ⟨some "cs", true, true, fun _ => true, fun _ => true⟩
      [⟨"d.jsonl.parts", [⟨"a", "A"⟩, ⟨"b", "B"⟩]⟩]
      [("d.jsonl", ⟨BlobKind.block, ["old"]⟩)] (some "d.jsonl")).failed = 2 ∧
    (flush_spool ⟨some "cs", true, true, fun _ => true, fun _ => true⟩
      [⟨"d.jsonl.parts", [⟨"a", "A"⟩, ⟨"b", "B"⟩]⟩]
      [("d.jsonl", ⟨BlobKind.block, ["old"]⟩)] (some "d.jsonl")).store =
      [("d.jsonl", ⟨BlobKind.block, ["old"]⟩)] := by
  have h := flush_type_mismatch_fails
    ⟨some "cs", true, true, fun _ => true, fun _ => true⟩ "d.jsonl"
    [⟨"a", "A"⟩, ⟨"b", "B"⟩] [("d.jsonl", ⟨BlobKind.block, ["old"]⟩)] ["old"]
    ⟨⟨"cs", rfl, by decide⟩, rfl, rfl⟩ (by decide) rfl
  exact ⟨h.1, h.2.1, h.2.2.2.1⟩

/-! ## C2: a failed append does not stop the per-target loop -/

/-- C2 counterexample: the claim states that when the append of the K-th
part (in sorted order) fails, parts K..N remain on disk and only parts
1..K-1 are uploaded; but with two parts and the first append failing
(K = 1, N = 2), the loop continues: the second part is uploaded and
deleted, only the first part remains, and one block is in the store. -/
theorem flush_append_failure_cex :
    flush_spool ⟨some "cs", true, true, fun n => n != "a", fun _ => true⟩
      [⟨"d.jsonl.parts", [⟨"a", "A"⟩, ⟨"b", "B"⟩]⟩] [] (some "d.jsonl")
      = ⟨1, 1, [⟨"d.jsonl.parts", [⟨"a", "A"⟩]⟩],
          [("d.jsonl", ⟨BlobKind.append, ["B"]⟩)]⟩ ∧
    (flush_spool ⟨some "cs", true, true, fun n => n != "a", fun _ => true⟩
      [⟨"d.jsonl.parts", [⟨"a", "A"⟩, ⟨"b", "B"⟩]⟩] [] (some "d.jsonl")).spool
      ≠ [⟨"d.jsonl.parts", [⟨"a", "A"⟩, ⟨"b", "B"⟩]⟩] := by
  constructor
  · decide
  · decide

/-- C2 amended: when the append of the K-th part (in sorted file-name
order) fails and every other operation succeeds, the loop continues past
the failure: every part other than K is uploaded (in order) and deleted
locally, only part K remains on disk, the counts are (N-1, 1), and a
subsequent flush pass with no failures uploads exactly part K -- the
remainder -- appending its bytes after the others.  Parts K+1..N do NOT
remain on disk, contrary to the claim as stated. -/
theorem flush_append_failure_continues (env : FlushEnv) (t : String)
    (dparts pre post : List PartFile) (pK : PartFile) (st : AzureState)
    (hg : goodGate env)
    (hsort : sortParts dparts = pre ++ pK :: post)
    (hK : env.appendOk pK.name = false)
    (hok : ∀ q ∈ pre ++ post, env.appendOk q.name = true ∧ env.unlinkOk q.name = true)
    (hblob : azLookup st t = none) :
    (flush_spool env [⟨t ++ ".parts", dparts⟩] st (some t)).flushed =
      pre.length + post.length ∧
    (flush_spool env [⟨t ++ ".parts", dparts⟩] st (some t)).failed = 1 ∧
    (flush_spool env [⟨t ++ ".parts", dparts⟩] st (some t)).spool =
      [⟨t ++ ".parts", [pK]⟩] ∧
    azLookup (flush_spool env [⟨t ++ ".parts", dparts⟩] st (some t)).store t =
      some ⟨BlobKind.append, (pre ++ post).map (fun q => q.data)⟩ ∧
    (∀ env2 : FlushEnv, goodGate env2 → env2.appendOk pK.name = true →
      env2.unlinkOk pK.name = true →
      (flush_spool env2 [⟨t ++ ".parts", [pK]⟩]
        (flush_spool env [⟨t ++ ".parts", dparts⟩] st (some t)).store (some t)).flushed = 1 ∧
      (flush_spool env2 [⟨t ++ ".parts", [pK]⟩]
        (flush_spool env [⟨t ++ ".parts", dparts⟩] st (some t)).store (some t)).failed = 0 ∧
      (flush_spool env2 [⟨t ++ ".parts", [pK]⟩]
        (flush_spool env [⟨t ++ ".parts", dparts⟩] st (some t)).store (some t)).spool = [] ∧
      azLookup (flush_spool env2 [⟨t ++ ".parts", [pK]⟩]
        (flush_spool env [⟨t ++ ".parts", dparts⟩] st (some t)).store (some t)).store t =
        some ⟨BlobKind.append, (pre ++ post).map (fun q => q.data) ++ [pK.data]⟩) := by
  have hKbad : (!(env.appendOk pK.name && env.unlinkOk pK.name)) = true := by
    simp [hK]
  have hne : (pre ++ pK :: post).isEmpty = false := by
    cases pre <;> simp [List.isEmpty]
  have hcreate := azLookup_azCreateAppend_self st t hblob
  obtain ⟨h1, h2, h3, h4⟩ :=
    flushParts_append_char env t (pre ++ pK :: post) (azCreateAppend st t) [] hcreate
  have hdir : flushDir env ⟨t ++ ".parts", dparts⟩ t st =
      flushParts env t (pre ++ pK :: post) (azCreateAppend st t) := by
    simp [flushDir, hsort, hne, hblob]
  have hfilterOk : (pre ++ pK :: post).filter
      (fun q => env.appendOk q.name && env.unlinkOk q.name) = pre ++ post := by
    rw [List.filter_append, List.filter_cons]
    rw [List.filter_eq_self.mpr (fun q hq => by
      obtain ⟨ha, hu⟩ := hok q (List.mem_append_left _ hq); simp [ha, hu])]
    rw [List.filter_eq_self.mpr (fun q hq => by
      obtain ⟨ha, hu⟩ := hok q (List.mem_append_right _ hq); simp [ha, hu])]
    simp [hK]
  have hfilterBad : (pre ++ pK :: post).filter
      (fun q => !(env.appendOk q.name && env.unlinkOk q.name)) = [pK] := by
    rw [List.filter_append, List.filter_cons]
    rw [List.filter_eq_nil_iff.mpr (fun q hq => by
      obtain ⟨ha, hu⟩ := hok q (List.mem_append_left _ hq); simp [ha, hu])]
    rw [List.filter_eq_nil_iff.mpr (fun q hq => by
      obtain ⟨ha, hu⟩ := hok q (List.mem_append_right _ hq); simp [ha, hu])]
    simp [hK]
  have hfilterAp : (pre ++ pK :: post).filter
      (fun q => env.appendOk q.name) = pre ++ post := by
    rw [List.filter_append, List.filter_cons]
    rw [List.filter_eq_self.mpr (fun q hq =>
      (hok q (List.mem_append_left _ hq)).1)]
    rw [List.filter_eq_self.mpr (fun q hq =>
      (hok q (List.mem_append_right _ hq)).1)]
    simp [hK]
  rw [flush_spool_target_single env t dparts st hg]
  have hrem : (flushDir env ⟨t ++ ".parts", dparts⟩ t st).remaining = [pK] := by
    rw [hdir, h3, hfilterBad]
  have hremE : (flushDir env ⟨t ++ ".parts", dparts⟩ t st).remaining.isEmpty = false := by
    rw [hrem]; simp [List.isEmpty]
  have hstore : azLookup (flushDir env ⟨t ++ ".parts", dparts⟩ t st).store t =
      some ⟨BlobKind.append, (pre ++ post).map (fun q => q.data)⟩ := by
    rw [hdir, h4, hfilterAp]
    simp
  refine ⟨?_, ?_, ?_, ?_, ?_⟩
  · show (flushDir env ⟨t ++ ".parts", dparts⟩ t st).flushed = _
    rw [hdir, h1, hfilterOk, List.length_append]
  · show (flushDir env ⟨t ++ ".parts", dparts⟩ t st).failed = 1
    rw [hdir, h2, hfilterBad]
    rfl
  · show (if (flushDir env ⟨t ++ ".parts", dparts⟩ t st).remaining.isEmpty then _
      else _) = _
    rw [hremE]
    simp only [Bool.false_eq_true, if_false]
    rw [hrem]
  · exact hstore
  · intro env2 hg2 hap2 hun2
    dsimp only
    generalize hS : (flushDir env ⟨t ++ ".parts", dparts⟩ t st).store = S at hstore ⊢
    obtain ⟨g1, g2, g3, g4⟩ := flushParts_append_char env2 t [pK] S
      ((pre ++ post).map (fun q => q.data)) hstore
    have hdir2 : flushDir env2 ⟨t ++ ".parts", [pK]⟩ t S = flushParts env2 t [pK] S := by
      simp [flushDir, show sortParts [pK] = [pK] from rfl,
        show ([pK] : List PartFile).isEmpty = false from rfl, hstore]
    rw [flush_spool_target_single env2 t [pK] S hg2]
    have hremE2 : (flushDir env2 ⟨t ++ ".parts", [pK]⟩ t S).remaining.isEmpty = true := by
      rw [hdir2, g3]
      simp [List.filter_cons, hap2, hun2]
    refine ⟨?_, ?_, ?_, ?_⟩
    · show (flushDir env2 ⟨t ++ ".parts", [pK]⟩ t S).flushed = 1
      rw [hdir2, g1]
      simp [List.filter_cons, hap2, hun2]
    · show (flushDir env2 ⟨t ++ ".parts", [pK]⟩ t S).failed = 0
      rw [hdir2, g2]
      simp [List.filter_cons, hap2, hun2]
    · show (if (flushDir env2 ⟨t ++ ".parts", [pK]⟩ t S).remaining.isEmpty then _
        else _) = _
      rw [hremE2]
      simp
    · show azLookup (flushDir env2 ⟨t ++ ".parts", [pK]⟩ t S).store t = _
      rw [hdir2, g4]
      simp [List.filter_cons, hap2]

/-- Witness for the amended C2: three parts with the middle append
failing; the first pass reports (2, 1) leaving only the middle part,
and the clean second pass reports (1, 0) and empties the directory. -/
theorem flush_append_failure_continues_wit :
    (flush_spool ⟨some "cs", true, true, fun n => n != "b", fun _ => true⟩
      [⟨"d.jsonl" ++ ".parts", [⟨"a", "A"⟩, ⟨"b", "B"⟩, ⟨"c", "C"⟩]⟩] []
      (some "d.jsonl")).flushed = 2 ∧
    (flush_spool ⟨some "cs", true, true, fun n => n != "b", fun _ => true⟩
      [⟨"d.jsonl" ++ ".parts", [⟨"a", "A"⟩, ⟨"b", "B"⟩, ⟨"c", "C"⟩]⟩] []
      (some "d.jsonl")).failed = 1 ∧
    (flush_spool ⟨some "cs", true, true, fun n => n != "b", fun _ => true⟩
      [⟨"d.jsonl" ++ ".parts", [⟨"a", "A"⟩, ⟨"b", "B"⟩, ⟨"c", "C"⟩]⟩] []
      (some "d.jsonl")).spool = [⟨"d.jsonl" ++ ".parts", [⟨"b", "B"⟩]⟩] ∧
    (flush_spool ⟨some "cs", true, true, fun _ => true, fun _ => true⟩
      [⟨"d.jsonl" ++ ".parts", [⟨"b", "B"⟩]⟩]
      (flush_spool ⟨some "cs", true, true, fun n => n != "b", fun _ => true⟩
        [⟨"d.jsonl" ++ ".parts", [⟨"a", "A"⟩, ⟨"b", "B"⟩, ⟨"c", "C"⟩]⟩] []
        (some "d.jsonl")).store (some "d.jsonl")).spool = [] := by
  have h := flush_append_failure_continues
    ⟨some "cs", true, true, fun n => n != "b", fun _ => true⟩ "d.jsonl"
    [⟨"a", "A"⟩, ⟨"b", "B"⟩, ⟨"c", "C"⟩] [⟨"a", "A"⟩] [⟨"c", "C"⟩] ⟨"b", "B"⟩ []
    ⟨⟨"cs", rfl, by decide⟩, rfl, rfl⟩ (by decide) rfl
    (by intro q hq; fin_cases hq <;> exact ⟨rfl, rfl⟩) rfl
  refine ⟨h.1.trans (by decide), h.2.1, h.2.2.1, ?_⟩
  exact (h.2.2.2.2 ⟨some "cs", true, true, fun _ => true, fun _ => true⟩
    ⟨⟨"cs", rfl, by decide⟩, rfl, rfl⟩ rfl rfl).2.2.1

/-! ## C9: which spool directories the full sweep covers -/

lemma endsWithChars_append_self (x suf : String) :
    endsWithChars (x ++ suf) suf = true := by
  simp only [endsWithChars, String.data_append, decide_eq_true_eq]
  exact List.suffix_append x.data suf.data

lemma endsWithChars_append_of (a b suf : String)
    (h : endsWithChars b suf = true) : endsWithChars (a ++ b) suf = true := by
  simp only [endsWithChars, decide_eq_true_eq] at h ⊢
  rw [String.data_append]
  exact h.trans (List.suffix_append a.data b.data)

lemma suffix_append_cancel (l₁ l₂ s : List Char) :
    (l₁ ++ s <:+ l₂ ++ s) ↔ (l₁ <:+ l₂) := by
  constructor
  · rintro ⟨u, hu⟩
    rw [← List.append_assoc] at hu
    exact ⟨u, List.append_cancel_right hu⟩
  · rintro ⟨u, hu⟩
    exact ⟨u, by rw [← List.append_assoc, hu]⟩

/-- A spool directory name blobPath ++ ".parts" matches the sweep
pattern *.jsonl.parts exactly when the blob path ends in .jsonl. -/
lemma endsWith_parts_jsonl (t : String) :
    endsWithChars (t ++ ".parts") ".jsonl.parts" = endsWithChars t ".jsonl" := by
  simp only [endsWithChars, String.data_append]
  rw [decide_eq_decide]
  exact suffix_append_cancel ".jsonl".data t.data ".parts".data

lemma removeSuffixStr_append (t suf : String) :
    removeSuffixStr (t ++ suf) suf = t := by
  unfold removeSuffixStr
  rw [if_pos (endsWithChars_append_self t suf)]
  rw [String.data_append, List.length_append, Nat.add_sub_cancel, List.take_left]

/-- C9 counterexample: the claim states that the full sweep flushes
every directory write_to_spool creates, for any target path; but the
directory created for the target "x" (which does not end in .jsonl) is
not matched by the rglob pattern *.jsonl.parts, so a full flush with
everything healthy uploads nothing and leaves the directory and its part
untouched. -/
theorem flush_sweep_misses_target_cex :
    write_to_spool [] "x" "f" "D" = [⟨"x.parts", [⟨"f", "D"⟩]⟩] ∧
    flush_spool ⟨some "cs", true, true, fun _ => true, fun _ => true⟩
      [⟨"x.parts", [⟨"f", "D"⟩]⟩] [] none
      = ⟨0, 0, [⟨"x.parts", [⟨"f", "D"⟩]⟩], []⟩ := by
  constructor
  · decide
  · decide

/-- C9 amended: the full sweep (no explicit target) scans exactly the
spool directories matching *.jsonl.parts, i.e. those whose target path
ends in .jsonl: a freshly written directory for such a target is flushed
completely (its record appended, the directory emptied), while a
directory for a target not ending in .jsonl is skipped untouched.  Every
path produced by build_bronze_path ends in .jsonl, so in this codebase
every spool directory written through it is covered by the sweep. -/
theorem flush_sweep_jsonl_targets (env : FlushEnv) (t fname data : String)
    (hg : goodGate env)
    (hap : ∀ n, env.appendOk n = true) (hun : ∀ n, env.unlinkOk n = true) :
    (endsWithChars t ".jsonl" = true →
      flush_spool env (write_to_spool [] t fname data) [] none =
        ⟨1, 0, [], [(t, ⟨BlobKind.append, [data]⟩)]⟩) ∧
    (endsWithChars t ".jsonl" = false →
      flush_spool env (write_to_spool [] t fname data) [] none =
        ⟨0, 0, write_to_spool [] t fname data, []⟩) ∧
    (∀ bronzePre storSystem storDataset cfgSource cfgEntity node dt,
      endsWithChars
        (build_bronze_path bronzePre storSystem storDataset cfgSource cfgEntity node dt)
        ".jsonl" = true) := by
  obtain ⟨⟨c, hc, hcne⟩, hsdk, hinit⟩ := hg
  have hw : write_to_spool [] t fname data = [⟨t ++ ".parts", [⟨fname, data⟩]⟩] := by
    simp [write_to_spool]
  refine ⟨?_, ?_, ?_⟩
  · intro ht
    have hsel : endsWithChars (t ++ ".parts") ".jsonl.parts" = true := by
      rw [endsWith_parts_jsonl]; exact ht
    rw [hw]
    simp only [flush_spool, hc, hcne, hsdk, hinit]
    rw [if_neg (by simp [hc, hcne])]
    rw [if_neg (by simp [hsdk])]
    rw [if_neg (by simp [hinit])]
    simp only [flushWalk, hsel, if_true, removeSuffixStr_append]
    have hdir : flushDir env ⟨t ++ ".parts", [⟨fname, data⟩]⟩ t [] =
        ⟨1, 0, [(t, ⟨BlobKind.append, [data]⟩)], []⟩ := by
      have hcr : azLookup (azCreateAppend [] t) t = some ⟨BlobKind.append, []⟩ :=
        azLookup_azCreateAppend_self [] t rfl
      have happ := azAppend_append_kind (azCreateAppend [] t) t data [] hcr
      simp only [flushDir, show sortParts [⟨fname, data⟩] = [⟨fname, data⟩] from rfl,
        show ([⟨fname, data⟩] : List PartFile).isEmpty = false from rfl,
        Bool.false_eq_true, if_false]
      rw [show azLookup ([] : AzureState) t = none from rfl]
      simp only [flushParts, hap fname, if_true, happ, hun fname]
      simp [azCreateAppend, azUpdate, flushParts]
    rw [hdir]
    rfl
  · intro ht
    have hsel : endsWithChars (t ++ ".parts") ".jsonl.parts" = false := by
      rw [endsWith_parts_jsonl]; exact ht
    rw [hw]
    simp only [flush_spool]
    rw [if_neg (by simp [hc, hcne])]
    rw [if_neg (by simp [hsdk])]
    rw [if_neg (by simp [hinit])]
    simp only [flushWalk, hsel, Bool.false_eq_true, if_false]
  · intro bronzePre storSystem storDataset cfgSource cfgEntity node dt
    simp only [build_bronze_path]
    apply endsWithChars_append_of
    cases node with
    | none => exact endsWithChars_append_self _ _
    | some n =>
      dsimp only
      by_cases hn : n ≠ ""
      · rw [if_pos hn]
        exact endsWithChars_append_self _ _
      · rw [if_neg hn]
        exact endsWithChars_append_self _ _

/-- Witness for the amended C9: a .jsonl target is swept and flushed; a
non-.jsonl target is skipped; a sample bronze path ends in .jsonl. -/
theorem flush_sweep_jsonl_targets_wit :
    flush_spool ⟨some "cs", true, true, fun _ => true, fun _ => true⟩
      (write_to_spool [] "b/s/d/dt=2026-10-12/e_2026-10-12.jsonl" "f" "D") [] none =
      ⟨1, 0, [], [("b/s/d/dt=2026-10-12/e_2026-10-12.jsonl",
        ⟨BlobKind.append, ["D"]⟩)]⟩ ∧
    flush_spool ⟨some "cs", true, true, fun _ => true, fun _ => true⟩
      (write_to_spool [] "x" "f" "D") [] none =
      ⟨0, 0, write_to_spool [] "x" "f" "D", []⟩ ∧
    endsWithChars (build_bronze_path none none none (some "s") (some "e") none
      "2026-10-12") ".jsonl" = true := by
  have h := flush_sweep_jsonl_targets
    ⟨some "cs", true, true, fun _ => true, fun _ => true⟩
    "b/s/d/dt=2026-10-12/e_2026-10-12.jsonl" "f" "D"
    ⟨⟨"cs", rfl, by decide⟩, rfl, rfl⟩ (fun _ => rfl) (fun _ => rfl)
  have h2 := flush_sweep_jsonl_targets
    ⟨some "cs", true, true, fun _ => true, fun _ => true⟩ "x" "f" "D"
    ⟨⟨"cs", rfl, by decide⟩, rfl, rfl⟩ (fun _ => rfl) (fun _ => rfl)
  exact ⟨h.1 (by decide), h2.2.1 (by decide),
    h.2.2 none none none (some "s") (some "e") none "2026-10-12"⟩

end HLM
